import Mathlib

/-!
Verification of the Sudoku board and backtracking solver
(`SudokuBoard.is_valid`, `SudokuBoard.find_empty`,
`SudokuSolver.solve` / `SudokuSolver._solve_backtracking`).

The 9x9 grid of digits is embedded as a function `Fin 9 → Fin 9 → Nat`
(Python: `self.board`, a 9x9 integer array).  The in-place mutation of
the solver's private copy is embedded as explicit state passing: the
recursive backtracking procedure takes the current grid and returns the
success flag together with the final state of the working grid.
Recursion is indexed by fuel, consumed once per recursive descent into
a new empty cell; termination with fuel 82 is proved below.
-/

set_option maxRecDepth 1000000
set_option maxHeartbeats 2000000

namespace Sudoku

/-- A 9x9 grid of digits; 0 means empty (Python: `self.board`). -/
abbrev Grid : Type := Fin 9 → Fin 9 → Nat

/-- Build a grid from a row-major list of rows (missing entries are 0). -/
def gridOfRows (rows : List (List Nat)) : Grid :=
  fun i j => (rows.getD i.val []).getD j.val 0

/-- Write value `v` at cell `(r, c)` (Python: `board[r, c] = v`). -/
def setCell (g : Grid) (r c : Fin 9) (v : Nat) : Grid :=
  fun i j => if i = r ∧ j = c then v else g i j

/-- `SudokuBoard.is_valid(row, col, num)`: scan the column, then the row,
then the 3x3 box starting at `(3*(row//3), 3*(col//3))`; return false as
soon as `num` is found, true otherwise. -/
def is_valid (g : Grid) (row col : Fin 9) (num : Nat) : Bool :=
  if (List.finRange 9).any (fun i => g i col == num) then false
  else if (List.finRange 9).any (fun j => g row j == num) then false
  else if (List.finRange 3).any (fun di => (List.finRange 3).any (fun dj =>
      g ⟨3 * (row.val / 3) + di.val, by have h1 := di.isLt; have h2 := row.isLt; omega⟩
        ⟨3 * (col.val / 3) + dj.val, by have h1 := dj.isLt; have h2 := col.isLt; omega⟩
        == num)) then false
  else true

/-- The 81 cells in row-major order (row 0..8, and column 0..8 inside
each row), the order of the two nested loops of `find_empty`. -/
def cellsRowMajor : List (Fin 9 × Fin 9) :=
  (List.finRange 9).flatMap fun i => (List.finRange 9).map fun j => (i, j)

/-- `SudokuBoard.find_empty()`: the first cell holding 0 in row-major
order, or none if the grid is completely filled. -/
def find_empty (g : Grid) : Option (Fin 9 × Fin 9) :=
  cellsRowMajor.find? (fun p => g p.1 p.2 == 0)

/-- The digit loop of `_solve_backtracking`: try the remaining candidate
digits `nums` at the empty cell `(r, c)`.  `recur` is the recursive call
on the rest of the search (one level deeper).  A `true` result
propagates immediately; a `false` result undoes the placement (resets
the cell to 0) and tries the next digit; when the digits are exhausted
the cell is unfilled and failure is reported with the current grid. -/
def tryNums (recur : Grid → Option (Bool × Grid)) (g : Grid) (r c : Fin 9) :
    List Nat → Option (Bool × Grid)
  | [] => some (false, g)
  | n :: rest =>
    if is_valid g r c n then
      match recur (setCell g r c n) with
      | none => none
      | some (true, g1) => some (true, g1)
      | some (false, g1) => tryNums recur (setCell g1 r c 0) r c rest
    else tryNums recur g r c rest

/-- `SudokuSolver._solve_backtracking`, with explicit fuel (one unit per
descent into a new empty cell; `none` means the fuel ran out, which is
proved impossible for fuel 82 below).  `some (true, g)` is a successful
return with solved working grid `g`; `some (false, g)` is failure with
working grid `g` (all placements undone). -/
def solveBk : Nat → Grid → Option (Bool × Grid)
  | 0, _ => none
  | fuel + 1, g =>
    match find_empty g with
    | none => some (true, g)
    | some (r, c) => tryNums (solveBk fuel) g r c [1, 2, 3, 4, 5, 6, 7, 8, 9]

/-- Number of empty cells of a grid (the recursion measure). -/
def numEmpty (g : Grid) : Nat :=
  (Finset.univ.filter fun p : Fin 9 × Fin 9 => g p.1 p.2 = 0).card

/-- `SudokuSolver.solve` restricted to its grid content: run the
backtracking search on (a copy of) the grid.  Fuel 82 always suffices
because a grid has at most 81 empty cells (proved below); the default
is never reached. -/
def solveGrid (g : Grid) : Bool × Grid :=
  (solveBk 82 g).getD (false, g)

/-- `SudokuBoard`: the grid plus the markers of the cells filled at
load time (Python: `self.original`). -/
structure SudokuBoard where
  board : Grid
  original : Fin 9 → Fin 9 → Bool

/-- The `SudokuSolver` object state: the input board and the solver's
private copy (Python: `self.board`, `self.solved_board`; the timing
field is display-only and omitted). -/
structure SudokuSolver where
  board : SudokuBoard
  solved_board : Option SudokuBoard

/-- `SudokuSolver.solve()`: deep-copy the input board (value semantics),
run `_solve_backtracking` on the copy, store the copy's final state in
`solved_board` and return the success flag with the new solver state. -/
def SudokuSolver.solve (s : SudokuSolver) : Bool × SudokuSolver :=
  let copy := s.board
  let res := solveGrid copy.board
  (res.1, { board := s.board
            solved_board := some { board := res.2, original := copy.original } })

/-- Row-major strict order on cells ("earlier" for `find_empty`). -/
def lexLt (p q : Fin 9 × Fin 9) : Prop :=
  p.1 < q.1 ∨ (p.1 = q.1 ∧ p.2 < q.2)

instance (p q : Fin 9 × Fin 9) : Decidable (lexLt p q) := by
  unfold lexLt; infer_instance

/-- Two cells share a unit: same row, same column, or same 3x3 box. -/
def sameUnit (p q : Fin 9 × Fin 9) : Prop :=
  p.1 = q.1 ∨ p.2 = q.2 ∨
    (p.1.val / 3 = q.1.val / 3 ∧ p.2.val / 3 = q.2.val / 3)

instance (p q : Fin 9 × Fin 9) : Decidable (sameUnit p q) := by
  unfold sameUnit; infer_instance

/-- A grid is consistent when no row, column or 3x3 box holds the same
nonzero digit twice. -/
def Consistent (g : Grid) : Prop :=
  ∀ p q : Fin 9 × Fin 9, p ≠ q → sameUnit p q →
    g p.1 p.2 ≠ 0 → g p.1 p.2 ≠ g q.1 q.2

instance (g : Grid) : Decidable (Consistent g) := by
  unfold Consistent; infer_instance

/-- Grid values lie in [0, 9] (the Grid data-model invariant). -/
def WellFormedGrid (g : Grid) : Prop :=
  ∀ i j, g i j ≤ 9

instance (g : Grid) : Decidable (WellFormedGrid g) := by
  unfold WellFormedGrid; infer_instance

/-- `s` is a full valid solution extending `g`: it agrees with `g` on
nonzero cells, all its values are digits 1..9, and it is consistent. -/
def SolutionOf (g s : Grid) : Prop :=
  (∀ i j, g i j ≠ 0 → s i j = g i j) ∧
    (∀ i j, 1 ≤ s i j ∧ s i j ≤ 9) ∧ Consistent s

instance (g s : Grid) : Decidable (SolutionOf g s) := by
  unfold SolutionOf; infer_instance

/-- Row index of the `k`-th cell (row-major) of box `b`. -/
def boxCellR (b k : Fin 9) : Fin 9 :=
  ⟨3 * (b.val / 3) + k.val / 3, by have h1 := b.isLt; have h2 := k.isLt; omega⟩

/-- Column index of the `k`-th cell (row-major) of box `b`. -/
def boxCellC (b k : Fin 9) : Fin 9 :=
  ⟨3 * (b.val % 3) + k.val % 3, by have h1 := b.isLt; have h2 := k.isLt; omega⟩

/-- The canonical test puzzle of the unit tests. -/
def canonicalGrid : Grid := gridOfRows
  [[5, 3, 0, 0, 7, 0, 0, 0, 0],
   [6, 0, 0, 1, 9, 5, 0, 0, 0],
   [0, 9, 8, 0, 0, 0, 0, 6, 0],
   [8, 0, 0, 0, 6, 0, 0, 0, 3],
   [4, 0, 0, 8, 0, 3, 0, 0, 1],
   [7, 0, 0, 0, 2, 0, 0, 0, 6],
   [0, 6, 0, 0, 0, 0, 2, 8, 0],
   [0, 0, 0, 4, 1, 9, 0, 0, 5],
   [0, 0, 0, 0, 8, 0, 0, 7, 9]]

/-- The all-zero (fully empty) grid. -/
def zeroGrid : Grid := fun _ _ => 0

/-- The fully assigned grid holding 1 in every cell: every row, column
and box repeats the digit 1, so it is maximally inconsistent, yet it
has no empty cell. -/
def allOnes : Grid := fun _ _ => 1

/-- A complete valid solution (the cyclic pattern), used as a witness
that the empty grid is solvable. -/
def fullSolution : Grid := gridOfRows
  [[1, 2, 3, 4, 5, 6, 7, 8, 9],
   [4, 5, 6, 7, 8, 9, 1, 2, 3],
   [7, 8, 9, 1, 2, 3, 4, 5, 6],
   [2, 3, 4, 5, 6, 7, 8, 9, 1],
   [5, 6, 7, 8, 9, 1, 2, 3, 4],
   [8, 9, 1, 2, 3, 4, 5, 6, 7],
   [3, 4, 5, 6, 7, 8, 9, 1, 2],
   [6, 7, 8, 9, 1, 2, 3, 4, 5],
   [9, 1, 2, 3, 4, 5, 6, 7, 8]]

/-- `fullSolution` with cell (0,0) cleared: a one-cell puzzle the
solver completes immediately (small concrete success case). -/
def gSolvedMinus : Grid := gridOfRows
  [[0, 2, 3, 4, 5, 6, 7, 8, 9],
   [4, 5, 6, 7, 8, 9, 1, 2, 3],
   [7, 8, 9, 1, 2, 3, 4, 5, 6],
   [2, 3, 4, 5, 6, 7, 8, 9, 1],
   [5, 6, 7, 8, 9, 1, 2, 3, 4],
   [8, 9, 1, 2, 3, 4, 5, 6, 7],
   [3, 4, 5, 6, 7, 8, 9, 1, 2],
   [6, 7, 8, 9, 1, 2, 3, 4, 5],
   [9, 1, 2, 3, 4, 5, 6, 7, 8]]

/-- Load-time markers for `gSolvedMinus`: exactly its nonzero cells. -/
def givenMarks : Fin 9 → Fin 9 → Bool :=
  fun i j => !(gSolvedMinus i j == 0)

/-- A consistent grid with no solution: cell (0,8) is empty, digits 1-8
fill the rest of row 0 and digit 9 sits in column 8, so no digit fits
and the search fails after nine validity checks. -/
def uQuick : Grid := gridOfRows
  [[1, 2, 3, 4, 5, 6, 7, 8, 0],
   [0, 0, 0, 0, 0, 0, 0, 0, 9]]

/-- The exception the array layer can raise on an element access. -/
inductive PyErr where
  | indexError
deriving DecidableEq

/-- Index semantics of the underlying array library on an axis of
length 9: indices 0..8 are taken as is, indices -9..-1 wrap around to
9+i, anything else raises `indexError`.  The Python code passes `row`,
`col` straight into `self.board[...]`, so out-of-range arguments reach
this layer unchecked. -/
def npIndex9 (i : Int) : Except PyErr (Fin 9) :=
  if h : 0 ≤ i ∧ i < 9 then Except.ok ⟨i.toNat, by omega⟩
  else if h2 : -9 ≤ i ∧ i < 0 then Except.ok ⟨(i + 9).toNat, by omega⟩
  else Except.error PyErr.indexError

/-- Read `board[i, j]` with the array library's index semantics. -/
def getCellNp (g : Grid) (i j : Int) : Except PyErr Nat :=
  match npIndex9 i with
  | Except.error e => Except.error e
  | Except.ok r =>
    match npIndex9 j with
    | Except.error e => Except.error e
    | Except.ok c => Except.ok (g r c)

/-- Scan a list of (row, col) index pairs for `num`, stopping at the
first hit (the early `return False` of the loops of `is_valid`); an
out-of-range access raises at the moment that cell is visited. -/
def findNumIn (g : Grid) (num : Int) : List (Int × Int) → Except PyErr Bool
  | [] => Except.ok false
  | p :: rest =>
    match getCellNp g p.1 p.2 with
    | Except.error e => Except.error e
    | Except.ok v => if (v : Int) = num then Except.ok true else findNumIn g num rest

/-- `SudokuBoard.is_valid(row, col, num)` exactly as executed for
arbitrary integer arguments, including the array library's index
semantics: scan the column, then the row, then the 3x3 box whose corner
is `(3*(row//3), 3*(col//3))` with Python floor division.  No argument
validation is performed by the method itself. -/
def is_valid_np (g : Grid) (row col num : Int) : Except PyErr Bool :=
  match findNumIn g num ((List.range 9).map fun i => ((i : Int), col)) with
  | Except.error e => Except.error e
  | Except.ok true => Except.ok false
  | Except.ok false =>
    match findNumIn g num ((List.range 9).map fun j => (row, (j : Int))) with
    | Except.error e => Except.error e
    | Except.ok true => Except.ok false
    | Except.ok false =>
      match findNumIn g num (((List.range 3).flatMap fun di =>
          (List.range 3).map fun dj =>
            (3 * Int.fdiv row 3 + (di : Int), 3 * Int.fdiv col 3 + (dj : Int)))) with
      | Except.error e => Except.error e
      | Except.ok true => Except.ok false
      | Except.ok false => Except.ok true

theorem setCell_same (g : Grid) (r c : Fin 9) (v : Nat) : setCell g r c v r c = v := by
  simp [setCell]

theorem setCell_other (g : Grid) (r c : Fin 9) (v : Nat) (i j : Fin 9)
    (h : ¬(i = r ∧ j = c)) : setCell g r c v i j = g i j := by
  simp only [setCell, if_neg h]

theorem setCell_setCell (g : Grid) (r c : Fin 9) (v w : Nat) :
    setCell (setCell g r c v) r c w = setCell g r c w := by
  funext i j
  by_cases h : i = r ∧ j = c <;> simp [setCell, h]

theorem setCell_zero_self (g : Grid) (r c : Fin 9) (h : g r c = 0) :
    setCell g r c 0 = g := by
  funext i j
  by_cases hij : i = r ∧ j = c
  · obtain ⟨h1, h2⟩ := hij
    subst h1; subst h2
    simp [setCell, h]
  · simp only [setCell, if_neg hij]

theorem numEmpty_le (g : Grid) : numEmpty g ≤ 81 := by
  calc (Finset.univ.filter fun p : Fin 9 × Fin 9 => g p.1 p.2 = 0).card
      ≤ Finset.univ.card := Finset.card_filter_le _ _
    _ = 81 := by simp

theorem numEmpty_set_lt (g : Grid) (r c : Fin 9) (n : Nat) (h0 : g r c = 0) (hn : n ≠ 0) :
    numEmpty (setCell g r c n) < numEmpty g := by
  have hmem : (r, c) ∈ (Finset.univ.filter fun p : Fin 9 × Fin 9 => g p.1 p.2 = 0) := by
    simp [h0]
  have hset : (Finset.univ.filter fun p : Fin 9 × Fin 9 => setCell g r c n p.1 p.2 = 0)
      = (Finset.univ.filter fun p : Fin 9 × Fin 9 => g p.1 p.2 = 0).erase (r, c) := by
    ext q
    obtain ⟨q1, q2⟩ := q
    simp only [Finset.mem_filter, Finset.mem_univ, true_and, Finset.mem_erase]
    by_cases hq : q1 = r ∧ q2 = c
    · obtain ⟨hq1, hq2⟩ := hq
      subst hq1; subst hq2
      simp [setCell, hn]
    · rw [setCell_other g r c n q1 q2 hq]
      have hne : ((q1, q2) : Fin 9 × Fin 9) ≠ (r, c) := by
        intro hc
        injection hc with a b
        exact hq ⟨a, b⟩
      exact ⟨fun hz => ⟨hne, hz⟩, fun hz => hz.2⟩
  unfold numEmpty
  rw [hset, Finset.card_erase_of_mem hmem]
  have hpos := Finset.card_pos.mpr ⟨(r, c), hmem⟩
  omega

theorem mem_cellsRowMajor : ∀ p : Fin 9 × Fin 9, p ∈ cellsRowMajor := by decide

theorem cellsRowMajor_pairwise : cellsRowMajor.Pairwise lexLt := by decide

theorem lexLt_irrefl : ∀ p : Fin 9 × Fin 9, ¬ lexLt p p := by decide

theorem lexLt_asymm : ∀ p q : Fin 9 × Fin 9, lexLt p q → ¬ lexLt q p := by decide

theorem lexLt_trichot : ∀ p q : Fin 9 × Fin 9, lexLt p q ∨ p = q ∨ lexLt q p := by decide

theorem find?_first {α : Type} (p : α → Bool) :
    ∀ (l : List α) (a : α), l.find? p = some a →
      ∃ l1 l2, l = l1 ++ a :: l2 ∧ ∀ x ∈ l1, p x = false
  | [], a, h => by simp [List.find?] at h
  | x :: xs, a, h => by
    by_cases hx : p x = true
    · refine ⟨[], xs, ?_, by simp⟩
      rw [List.find?_cons_of_pos _ hx] at h
      injection h with h'
      rw [h']
      rfl
    · have hx' : p x = false := by
        cases hpx : p x
        · rfl
        · exact absurd hpx hx
      rw [List.find?_cons_of_neg _ (by simp [hx'])] at h
      obtain ⟨l1, l2, heq, hall⟩ := find?_first p xs a h
      refine ⟨x :: l1, l2, by rw [heq]; rfl, ?_⟩
      intro y hy
      rcases List.mem_cons.mp hy with h1 | h2
      · rw [h1]; exact hx'
      · exact hall y h2

theorem find_empty_zero {g : Grid} {r c : Fin 9} (h : find_empty g = some (r, c)) :
    g r c = 0 := by
  have hp := List.find?_some h
  simpa using hp

theorem find_empty_none {g : Grid} (h : find_empty g = none) : ∀ i j, g i j ≠ 0 := by
  intro i j hz
  have hall := List.find?_eq_none.mp h (i, j) (mem_cellsRowMajor (i, j))
  simp at hall
  exact hall hz

theorem find_empty_first {g : Grid} {r c : Fin 9} (h : find_empty g = some (r, c)) :
    ∀ p : Fin 9 × Fin 9, lexLt p (r, c) → g p.1 p.2 ≠ 0 := by
  intro p hlt hz
  obtain ⟨l1, l2, heq, hall⟩ := find?_first _ _ _ h
  have hmem : p ∈ l1 ++ (r, c) :: l2 := heq ▸ mem_cellsRowMajor p
  rcases List.mem_append.mp hmem with h1 | h2
  · have hfalse := hall p h1
    simp [hz] at hfalse
  · rcases List.mem_cons.mp h2 with h3 | h4
    · rw [h3] at hlt
      exact lexLt_irrefl _ hlt
    · have hpw : ((r, c) :: l2).Pairwise lexLt :=
        (heq ▸ cellsRowMajor_pairwise).sublist (List.sublist_append_right l1 _)
      have hord := (List.pairwise_cons.mp hpw).1 p h4
      exact lexLt_asymm _ _ hlt hord

theorem find_empty_some_iff {g : Grid} {r c : Fin 9} :
    find_empty g = some (r, c) ↔
      (g r c = 0 ∧ ∀ p : Fin 9 × Fin 9, lexLt p (r, c) → g p.1 p.2 ≠ 0) := by
  constructor
  · intro h
    exact ⟨find_empty_zero h, find_empty_first h⟩
  · rintro ⟨hz, hfirst⟩
    cases hfe : find_empty g with
    | none => exact absurd hz (find_empty_none hfe r c)
    | some q =>
      obtain ⟨r', c'⟩ := q
      rcases lexLt_trichot (r', c') (r, c) with hlt | heq | hgt
      · exact absurd (find_empty_zero hfe) (hfirst (r', c') hlt)
      · rw [heq]
      · exact absurd hz (find_empty_first hfe (r, c) hgt)

theorem box_decomp (r i : Fin 9) :
    i.val / 3 = r.val / 3 ↔ ∃ di : Fin 3, i.val = 3 * (r.val / 3) + di.val := by
  constructor
  · intro h
    refine ⟨⟨i.val % 3, Nat.mod_lt _ (by omega)⟩, ?_⟩
    show i.val = 3 * (r.val / 3) + i.val % 3
    omega
  · rintro ⟨di, hdi⟩
    have hlt := di.isLt
    omega

theorem is_valid_iff (g : Grid) (r c : Fin 9) (n : Nat) :
    is_valid g r c n = true ↔
      (∀ i, g i c ≠ n) ∧ (∀ j, g r j ≠ n) ∧
        (∀ i j : Fin 9, i.val / 3 = r.val / 3 → j.val / 3 = c.val / 3 → g i j ≠ n) := by
  unfold is_valid
  split
  · rename_i h1
    simp only [List.any_eq_true, List.mem_finRange, beq_iff_eq, true_and] at h1
    obtain ⟨i0, hi0⟩ := h1
    constructor
    · intro hfalse
      simp at hfalse
    · rintro ⟨hcol, -, -⟩
      exact absurd hi0 (hcol i0)
  · split
    · rename_i h2
      simp only [List.any_eq_true, List.mem_finRange, beq_iff_eq, true_and] at h2
      obtain ⟨j0, hj0⟩ := h2
      constructor
      · intro hfalse
        simp at hfalse
      · rintro ⟨-, hrow, -⟩
        exact absurd hj0 (hrow j0)
    · split
      · rename_i h3
        simp only [List.any_eq_true, List.mem_finRange, beq_iff_eq, true_and] at h3
        obtain ⟨di, dj, hval⟩ := h3
        constructor
        · intro hfalse
          simp at hfalse
        · rintro ⟨-, -, hbox⟩
          refine absurd hval (hbox _ _ ?_ ?_)
          · have hlt := di.isLt
            have hlt2 := r.isLt
            show (3 * (r.val / 3) + di.val) / 3 = r.val / 3
            omega
          · have hlt := dj.isLt
            have hlt2 := c.isLt
            show (3 * (c.val / 3) + dj.val) / 3 = c.val / 3
            omega
      · rename_i h1 h2 h3
        simp only [List.any_eq_true, List.mem_finRange, beq_iff_eq, true_and] at h1 h2 h3
        push_neg at h1 h2 h3
        constructor
        · intro _
          refine ⟨fun i => h1 i, fun j => h2 j, ?_⟩
          intro i j hdi hdj hg
          obtain ⟨di, hdi2⟩ := (box_decomp r i).mp hdi
          obtain ⟨dj, hdj2⟩ := (box_decomp c j).mp hdj
          apply h3 di dj
          have hi2 : i = ⟨3 * (r.val / 3) + di.val, by
              have hlt := di.isLt
              have hlt2 := r.isLt
              omega⟩ := Fin.ext hdi2
          have hj2 : j = ⟨3 * (c.val / 3) + dj.val, by
              have hlt := dj.isLt
              have hlt2 := c.isLt
              omega⟩ := Fin.ext hdj2
          rw [hi2, hj2] at hg
          exact hg
        · intro _
          rfl

theorem consistent_set {g : Grid} {r c : Fin 9} {n : Nat} (hC : Consistent g)
    (hv : is_valid g r c n = true) :
    Consistent (setCell g r c n) := by
  obtain ⟨hcol, hrow, hbox⟩ := (is_valid_iff g r c n).mp hv
  have hunit_ne : ∀ i j : Fin 9, sameUnit (i, j) (r, c) → g i j ≠ n := by
    intro i j hu heq
    have hu2 : i = r ∨ j = c ∨ (i.val / 3 = r.val / 3 ∧ j.val / 3 = c.val / 3) := hu
    rcases hu2 with h | h | h
    · rw [h] at heq
      exact hrow j heq
    · rw [h] at heq
      exact hcol i heq
    · exact hbox i j h.1 h.2 heq
  rintro ⟨p1, p2⟩ ⟨q1, q2⟩ hpq hunit hp0
  have hunit2 : p1 = q1 ∨ p2 = q2 ∨
      (p1.val / 3 = q1.val / 3 ∧ p2.val / 3 = q2.val / 3) := hunit
  show setCell g r c n p1 p2 ≠ setCell g r c n q1 q2
  have hp0' : setCell g r c n p1 p2 ≠ 0 := hp0
  by_cases hp : p1 = r ∧ p2 = c
  · obtain ⟨e1, e2⟩ := hp
    have hq : ¬(q1 = r ∧ q2 = c) := by
      rintro ⟨f1, f2⟩
      apply hpq
      rw [e1, e2, f1, f2]
    have hvp : setCell g r c n p1 p2 = n := by
      rw [e1, e2]
      exact setCell_same g r c n
    have hvq : setCell g r c n q1 q2 = g q1 q2 := setCell_other g r c n q1 q2 hq
    rw [hvp, hvq]
    intro heq
    have hu : sameUnit (q1, q2) (r, c) := by
      have h13 : p1.val / 3 = r.val / 3 := by rw [e1]
      have h23 : p2.val / 3 = c.val / 3 := by rw [e2]
      rcases hunit2 with h | h | h
      · exact Or.inl (h.symm.trans e1)
      · exact Or.inr (Or.inl (h.symm.trans e2))
      · exact Or.inr (Or.inr ⟨h.1.symm.trans h13, h.2.symm.trans h23⟩)
    exact hunit_ne q1 q2 hu heq.symm
  · have hvp : setCell g r c n p1 p2 = g p1 p2 := setCell_other g r c n p1 p2 hp
    rw [hvp] at hp0' ⊢
    by_cases hq : q1 = r ∧ q2 = c
    · obtain ⟨f1, f2⟩ := hq
      have hvq : setCell g r c n q1 q2 = n := by
        rw [f1, f2]
        exact setCell_same g r c n
      rw [hvq]
      have hu : sameUnit (p1, p2) (r, c) := by
        have h13 : q1.val / 3 = r.val / 3 := by rw [f1]
        have h23 : q2.val / 3 = c.val / 3 := by rw [f2]
        rcases hunit2 with h | h | h
        · exact Or.inl (h.trans f1)
        · exact Or.inr (Or.inl (h.trans f2))
        · exact Or.inr (Or.inr ⟨h.1.trans h13, h.2.trans h23⟩)
      exact hunit_ne p1 p2 hu
    · have hvq : setCell g r c n q1 q2 = g q1 q2 := setCell_other g r c n q1 q2 hq
      rw [hvq]
      exact hC (p1, p2) (q1, q2) hpq hunit hp0'

theorem find_empty_none_iff {g : Grid} : find_empty g = none ↔ ∀ i j, g i j ≠ 0 := by
  constructor
  · exact find_empty_none
  · intro hall
    cases hfe : find_empty g with
    | none => rfl
    | some q =>
      obtain ⟨r, c⟩ := q
      exact absurd (find_empty_zero hfe) (hall r c)

theorem tryNums_nil (recur : Grid → Option (Bool × Grid)) (g : Grid) (r c : Fin 9) :
    tryNums recur g r c [] = some (false, g) := rfl

theorem tryNums_cons (recur : Grid → Option (Bool × Grid)) (g : Grid) (r c : Fin 9)
    (n : Nat) (rest : List Nat) :
    tryNums recur g r c (n :: rest) =
      if is_valid g r c n then
        match recur (setCell g r c n) with
        | none => none
        | some (true, g1) => some (true, g1)
        | some (false, g1) => tryNums recur (setCell g1 r c 0) r c rest
      else tryNums recur g r c rest := rfl

theorem solveBk_zero (g : Grid) : solveBk 0 g = none := rfl

theorem solveBk_succ (fuel : Nat) (g : Grid) :
    solveBk (fuel + 1) g =
      match find_empty g with
      | none => some (true, g)
      | some (r, c) => tryNums (solveBk fuel) g r c [1, 2, 3, 4, 5, 6, 7, 8, 9] := rfl

theorem tryNums_false_eq (recur : Grid → Option (Bool × Grid))
    (hF : ∀ gin gout, recur gin = some (false, gout) → gout = gin) (r c : Fin 9) :
    ∀ (nums : List Nat) (g gout : Grid), g r c = 0 →
      tryNums recur g r c nums = some (false, gout) → gout = g := by
  intro nums
  induction nums with
  | nil =>
    intro g gout h0 h
    rw [tryNums_nil] at h
    injection h with h'
    exact (congrArg Prod.snd h').symm
  | cons n rest ih =>
    intro g gout h0 h
    rw [tryNums_cons] at h
    by_cases hv : is_valid g r c n = true
    · rw [if_pos hv] at h
      cases hR : recur (setCell g r c n) with
      | none =>
        simp only [hR] at h
        exact Option.noConfusion h
      | some p =>
        obtain ⟨b1, g1⟩ := p
        cases b1
        · have hg1 : g1 = setCell g r c n := hF _ _ hR
          have hrestore : setCell g1 r c 0 = g := by
            rw [hg1, setCell_setCell, setCell_zero_self g r c h0]
          simp only [hR, hrestore] at h
          exact ih g gout h0 h
        · simp only [hR] at h
          injection h with h'
          exact absurd (congrArg Prod.fst h') (by simp)
    · rw [if_neg hv] at h
      exact ih g gout h0 h

theorem solveBk_false_eq :
    ∀ (fuel : Nat) (g gout : Grid), solveBk fuel g = some (false, gout) → gout = g := by
  intro fuel
  induction fuel with
  | zero =>
    intro g gout h
    rw [solveBk_zero] at h
    exact Option.noConfusion h
  | succ f ih =>
    intro g gout h
    rw [solveBk_succ] at h
    cases hFE : find_empty g with
    | none =>
      simp only [hFE] at h
      injection h with h'
      exact absurd (congrArg Prod.fst h') (by simp)
    | some p =>
      obtain ⟨r, c⟩ := p
      simp only [hFE] at h
      exact tryNums_false_eq (solveBk f) (fun gin go hh => ih gin go hh) r c _ g gout
        (find_empty_zero hFE) h

theorem tryNums_ne_none (recur : Grid → Option (Bool × Grid)) (g : Grid) (r c : Fin 9)
    (hF : ∀ gin gout, recur gin = some (false, gout) → gout = gin)
    (hN : ∀ gin, numEmpty gin < numEmpty g → recur gin ≠ none)
    (h0 : g r c = 0) :
    ∀ nums : List Nat, (∀ n ∈ nums, n ≠ 0) → tryNums recur g r c nums ≠ none := by
  intro nums
  induction nums with
  | nil =>
    intro _ h
    rw [tryNums_nil] at h
    exact Option.noConfusion h
  | cons n rest ih =>
    intro hnum h
    rw [tryNums_cons] at h
    by_cases hv : is_valid g r c n = true
    · rw [if_pos hv] at h
      have hn0 : n ≠ 0 := hnum n (List.mem_cons_self n rest)
      have hlt : numEmpty (setCell g r c n) < numEmpty g := numEmpty_set_lt g r c n h0 hn0
      cases hR : recur (setCell g r c n) with
      | none => exact hN _ hlt hR
      | some p =>
        obtain ⟨b1, g1⟩ := p
        cases b1
        · have hg1 : g1 = setCell g r c n := hF _ _ hR
          have hrestore : setCell g1 r c 0 = g := by
            rw [hg1, setCell_setCell, setCell_zero_self g r c h0]
          simp only [hR, hrestore] at h
          exact ih (fun m hm => hnum m (List.mem_cons_of_mem n hm)) h
        · simp only [hR] at h
          exact Option.noConfusion h
    · rw [if_neg hv] at h
      exact ih (fun m hm => hnum m (List.mem_cons_of_mem n hm)) h

theorem solveBk_ne_none :
    ∀ (fuel : Nat) (g : Grid), numEmpty g < fuel → solveBk fuel g ≠ none := by
  intro fuel
  induction fuel with
  | zero =>
    intro g h
    exact absurd h (Nat.not_lt_zero _)
  | succ f ih =>
    intro g hlt h
    rw [solveBk_succ] at h
    cases hFE : find_empty g with
    | none =>
      simp only [hFE] at h
      exact Option.noConfusion h
    | some p =>
      obtain ⟨r, c⟩ := p
      simp only [hFE] at h
      exact tryNums_ne_none (solveBk f) g r c
        (fun gin go hh => solveBk_false_eq f gin go hh)
        (fun gin hin => ih gin (by omega))
        (find_empty_zero hFE) _
        (by intro m hm; fin_cases hm <;> decide) h

theorem tryNums_full (recur : Grid → Option (Bool × Grid))
    (hSucc : ∀ gin gout, recur gin = some (true, gout) → find_empty gout = none)
    (r c : Fin 9) :
    ∀ (nums : List Nat) (g gout : Grid),
      tryNums recur g r c nums = some (true, gout) → find_empty gout = none := by
  intro nums
  induction nums with
  | nil =>
    intro g gout h
    rw [tryNums_nil] at h
    injection h with h'
    exact absurd (congrArg Prod.fst h') (by simp)
  | cons n rest ih =>
    intro g gout h
    rw [tryNums_cons] at h
    by_cases hv : is_valid g r c n = true
    · rw [if_pos hv] at h
      cases hR : recur (setCell g r c n) with
      | none =>
        simp only [hR] at h
        exact Option.noConfusion h
      | some p =>
        obtain ⟨b1, g1⟩ := p
        cases b1
        · simp only [hR] at h
          exact ih _ _ h
        · simp only [hR] at h
          injection h with h'
          have hgg : g1 = gout := congrArg Prod.snd h'
          rw [← hgg]
          exact hSucc _ _ hR
    · rw [if_neg hv] at h
      exact ih _ _ h

theorem solveBk_full :
    ∀ (fuel : Nat) (g gout : Grid), solveBk fuel g = some (true, gout) →
      find_empty gout = none := by
  intro fuel
  induction fuel with
  | zero =>
    intro g gout h
    rw [solveBk_zero] at h
    exact Option.noConfusion h
  | succ f ih =>
    intro g gout h
    rw [solveBk_succ] at h
    cases hFE : find_empty g with
    | none =>
      simp only [hFE] at h
      injection h with h'
      have hgg : g = gout := congrArg Prod.snd h'
      rw [← hgg]
      exact hFE
    | some p =>
      obtain ⟨r, c⟩ := p
      simp only [hFE] at h
      exact tryNums_full (solveBk f) (fun gin go hh => ih gin go hh) r c _ g gout h

theorem tryNums_cells (recur : Grid → Option (Bool × Grid))
    (hF : ∀ gin gout, recur gin = some (false, gout) → gout = gin)
    (hEx : ∀ gin (b : Bool) gout, recur gin = some (b, gout) →
      ∀ i j, gout i j = gin i j ∨ (gin i j = 0 ∧ 1 ≤ gout i j ∧ gout i j ≤ 9))
    (g : Grid) (r c : Fin 9) (h0 : g r c = 0) :
    ∀ (nums : List Nat) (b : Bool) (gout : Grid), (∀ n ∈ nums, 1 ≤ n ∧ n ≤ 9) →
      tryNums recur g r c nums = some (b, gout) →
      ∀ i j, gout i j = g i j ∨ (g i j = 0 ∧ 1 ≤ gout i j ∧ gout i j ≤ 9) := by
  intro nums
  induction nums with
  | nil =>
    intro b gout _ h i j
    rw [tryNums_nil] at h
    injection h with h'
    have hgg : g = gout := congrArg Prod.snd h'
    rw [← hgg]
    exact Or.inl rfl
  | cons n rest ih =>
    intro b gout hnum h i j
    rw [tryNums_cons] at h
    by_cases hv : is_valid g r c n = true
    · rw [if_pos hv] at h
      cases hR : recur (setCell g r c n) with
      | none =>
        simp only [hR] at h
        exact Option.noConfusion h
      | some p =>
        obtain ⟨b1, g1⟩ := p
        cases b1
        · have hg1 : g1 = setCell g r c n := hF _ _ hR
          have hrestore : setCell g1 r c 0 = g := by
            rw [hg1, setCell_setCell, setCell_zero_self g r c h0]
          simp only [hR, hrestore] at h
          exact ih b gout (fun m hm => hnum m (List.mem_cons_of_mem n hm)) h i j
        · simp only [hR] at h
          injection h with h'
          have hgg : g1 = gout := congrArg Prod.snd h'
          have hbounds := hnum n (List.mem_cons_self n rest)
          have hstep := hEx _ _ _ hR i j
          rw [hgg] at hstep
          by_cases hij : i = r ∧ j = c
          · have hsc : setCell g r c n i j = n := by
              rw [hij.1, hij.2]
              exact setCell_same g r c n
            have hgij : g i j = 0 := by
              rw [hij.1, hij.2]
              exact h0
            rcases hstep with hcase | hcase
            · right
              rw [hcase, hsc]
              exact ⟨hgij, hbounds.1, hbounds.2⟩
            · rw [hsc] at hcase
              have hb1 := hbounds.1
              exact absurd hcase.1 (by omega)
          · have hsc : setCell g r c n i j = g i j := setCell_other g r c n i j hij
            rw [hsc] at hstep
            exact hstep
    · rw [if_neg hv] at h
      exact ih b gout (fun m hm => hnum m (List.mem_cons_of_mem n hm)) h i j

theorem solveBk_cells :
    ∀ (fuel : Nat) (g : Grid) (b : Bool) (gout : Grid), solveBk fuel g = some (b, gout) →
      ∀ i j, gout i j = g i j ∨ (g i j = 0 ∧ 1 ≤ gout i j ∧ gout i j ≤ 9) := by
  intro fuel
  induction fuel with
  | zero =>
    intro g b gout h
    rw [solveBk_zero] at h
    exact Option.noConfusion h
  | succ f ih =>
    intro g b gout h
    rw [solveBk_succ] at h
    cases hFE : find_empty g with
    | none =>
      simp only [hFE] at h
      injection h with h'
      intro i j
      have hgg : g = gout := congrArg Prod.snd h'
      rw [← hgg]
      exact Or.inl rfl
    | some p =>
      obtain ⟨r, c⟩ := p
      simp only [hFE] at h
      exact tryNums_cells (solveBk f)
        (fun gin go hh => solveBk_false_eq f gin go hh)
        (fun gin b2 go hh => ih gin b2 go hh)
        g r c (find_empty_zero hFE) _ b gout
        (by intro m hm; fin_cases hm <;> exact ⟨by decide, by decide⟩) h

theorem tryNums_consistent (recur : Grid → Option (Bool × Grid))
    (hF : ∀ gin gout, recur gin = some (false, gout) → gout = gin)
    (hCons : ∀ gin gout, recur gin = some (true, gout) → Consistent gin → Consistent gout)
    (g : Grid) (r c : Fin 9) (h0 : g r c = 0) (hCg : Consistent g) :
    ∀ (nums : List Nat) (gout : Grid),
      tryNums recur g r c nums = some (true, gout) → Consistent gout := by
  intro nums
  induction nums with
  | nil =>
    intro gout h
    rw [tryNums_nil] at h
    injection h with h'
    exact absurd (congrArg Prod.fst h') (by simp)
  | cons n rest ih =>
    intro gout h
    rw [tryNums_cons] at h
    by_cases hv : is_valid g r c n = true
    · rw [if_pos hv] at h
      cases hR : recur (setCell g r c n) with
      | none =>
        simp only [hR] at h
        exact Option.noConfusion h
      | some p =>
        obtain ⟨b1, g1⟩ := p
        cases b1
        · have hg1 : g1 = setCell g r c n := hF _ _ hR
          have hrestore : setCell g1 r c 0 = g := by
            rw [hg1, setCell_setCell, setCell_zero_self g r c h0]
          simp only [hR, hrestore] at h
          exact ih gout h
        · simp only [hR] at h
          injection h with h'
          have hgg : g1 = gout := congrArg Prod.snd h'
          rw [← hgg]
          exact hCons _ _ hR (consistent_set hCg hv)
    · rw [if_neg hv] at h
      exact ih gout h

theorem solveBk_consistent :
    ∀ (fuel : Nat) (g gout : Grid), solveBk fuel g = some (true, gout) →
      Consistent g → Consistent gout := by
  intro fuel
  induction fuel with
  | zero =>
    intro g gout h
    rw [solveBk_zero] at h
    exact Option.noConfusion h
  | succ f ih =>
    intro g gout h hCg
    rw [solveBk_succ] at h
    cases hFE : find_empty g with
    | none =>
      simp only [hFE] at h
      injection h with h'
      have hgg : g = gout := congrArg Prod.snd h'
      rw [← hgg]
      exact hCg
    | some p =>
      obtain ⟨r, c⟩ := p
      simp only [hFE] at h
      exact tryNums_consistent (solveBk f)
        (fun gin go hh => solveBk_false_eq f gin go hh)
        (fun gin go hh hc => ih gin go hh hc)
        g r c (find_empty_zero hFE) hCg _ gout h

theorem one_to_nine_mem (n : Nat) (h1 : 1 ≤ n) (h9 : n ≤ 9) :
    n ∈ [1, 2, 3, 4, 5, 6, 7, 8, 9] := by
  simp only [List.mem_cons, List.not_mem_nil, or_false]
  omega

theorem solution_is_valid {g s : Grid} {r c : Fin 9} (hS : SolutionOf g s) (h0 : g r c = 0) :
    is_valid g r c (s r c) = true := by
  obtain ⟨hext, hbnd, hcons⟩ := hS
  rw [is_valid_iff]
  refine ⟨?_, ?_, ?_⟩
  · intro i heq
    have hs1 : 1 ≤ s r c := (hbnd r c).1
    by_cases hir : i = r
    · rw [hir] at heq
      omega
    · have hne : g i c ≠ 0 := by omega
      have hsic : s i c = g i c := hext i c hne
      have hpq : ((i, c) : Fin 9 × Fin 9) ≠ (r, c) := by
        intro hc2
        exact hir (congrArg Prod.fst hc2)
      have hsp : s i c ≠ 0 := by
        have := (hbnd i c).1
        omega
      have hx := hcons (i, c) (r, c) hpq (Or.inr (Or.inl rfl)) hsp
      rw [hsic, heq] at hx
      exact hx rfl
  · intro j heq
    have hs1 : 1 ≤ s r c := (hbnd r c).1
    by_cases hjc : j = c
    · rw [hjc] at heq
      omega
    · have hne : g r j ≠ 0 := by omega
      have hsrj : s r j = g r j := hext r j hne
      have hpq : ((r, j) : Fin 9 × Fin 9) ≠ (r, c) := by
        intro hc2
        exact hjc (congrArg Prod.snd hc2)
      have hsp : s r j ≠ 0 := by
        have := (hbnd r j).1
        omega
      have hx := hcons (r, j) (r, c) hpq (Or.inl rfl) hsp
      rw [hsrj, heq] at hx
      exact hx rfl
  · intro i j hdi hdj heq
    have hs1 : 1 ≤ s r c := (hbnd r c).1
    by_cases hijrc : (i, j) = ((r, c) : Fin 9 × Fin 9)
    · have e1 : i = r := congrArg Prod.fst hijrc
      have e2 : j = c := congrArg Prod.snd hijrc
      rw [e1, e2] at heq
      omega
    · have hne : g i j ≠ 0 := by omega
      have hsij : s i j = g i j := hext i j hne
      have hsp : s i j ≠ 0 := by
        have := (hbnd i j).1
        omega
      have hx := hcons (i, j) (r, c) hijrc (Or.inr (Or.inr ⟨hdi, hdj⟩)) hsp
      rw [hsij, heq] at hx
      exact hx rfl

theorem solution_set {g s : Grid} {r c : Fin 9} (hS : SolutionOf g s) (h0 : g r c = 0) :
    SolutionOf (setCell g r c (s r c)) s := by
  obtain ⟨hext, hbnd, hcons⟩ := hS
  refine ⟨?_, hbnd, hcons⟩
  intro i j hne
  by_cases hij : i = r ∧ j = c
  · rw [hij.1, hij.2, setCell_same]
  · rw [setCell_other g r c (s r c) i j hij] at hne ⊢
    exact hext i j hne

theorem tryNums_complete (recur : Grid → Option (Bool × Grid)) (g : Grid) (r c : Fin 9)
    (hF : ∀ gin gout, recur gin = some (false, gout) → gout = gin)
    (hN : ∀ gin, numEmpty gin < numEmpty g → recur gin ≠ none)
    (hC : ∀ gin, numEmpty gin < numEmpty g → (∃ s2, SolutionOf gin s2) →
      ∃ gout, recur gin = some (true, gout))
    (s : Grid) (hS : SolutionOf g s) (h0 : g r c = 0) :
    ∀ nums : List Nat, s r c ∈ nums → (∀ n ∈ nums, n ≠ 0) →
      ∃ gout, tryNums recur g r c nums = some (true, gout) := by
  intro nums
  induction nums with
  | nil =>
    intro hmem _
    exact absurd hmem (List.not_mem_nil _)
  | cons n rest ih =>
    intro hmem hnum
    rw [tryNums_cons]
    by_cases hns : n = s r c
    · have hv : is_valid g r c n = true := by
        rw [hns]
        exact solution_is_valid ⟨hS.1, hS.2.1, hS.2.2⟩ h0
      rw [if_pos hv]
      have hlt : numEmpty (setCell g r c n) < numEmpty g :=
        numEmpty_set_lt g r c n h0 (hnum n (List.mem_cons_self n rest))
      have hsol : ∃ s2, SolutionOf (setCell g r c n) s2 := by
        rw [hns]
        exact ⟨s, solution_set hS h0⟩
      obtain ⟨gout, hR⟩ := hC _ hlt hsol
      simp only [hR]
      exact ⟨gout, rfl⟩
    · have hmem2 : s r c ∈ rest := by
        rcases List.mem_cons.mp hmem with h | h
        · exact absurd h.symm hns
        · exact h
      have hnum2 : ∀ m ∈ rest, m ≠ 0 := fun m hm => hnum m (List.mem_cons_of_mem n hm)
      by_cases hv : is_valid g r c n = true
      · rw [if_pos hv]
        have hn0 : n ≠ 0 := hnum n (List.mem_cons_self n rest)
        have hlt : numEmpty (setCell g r c n) < numEmpty g := numEmpty_set_lt g r c n h0 hn0
        cases hR : recur (setCell g r c n) with
        | none => exact absurd hR (hN _ hlt)
        | some p =>
          obtain ⟨b1, g1⟩ := p
          cases b1
          · have hg1 : g1 = setCell g r c n := hF _ _ hR
            have hrestore : setCell g1 r c 0 = g := by
              rw [hg1, setCell_setCell, setCell_zero_self g r c h0]
            simp only [hR, hrestore]
            exact ih hmem2 hnum2
          · simp only [hR]
            exact ⟨g1, rfl⟩
      · rw [if_neg hv]
        exact ih hmem2 hnum2

theorem solveBk_complete :
    ∀ (fuel : Nat) (g : Grid), numEmpty g < fuel → (∃ s, SolutionOf g s) →
      ∃ gout, solveBk fuel g = some (true, gout) := by
  intro fuel
  induction fuel with
  | zero =>
    intro g h _
    exact absurd h (Nat.not_lt_zero _)
  | succ f ih =>
    intro g hlt hsol
    rw [solveBk_succ]
    cases hFE : find_empty g with
    | none => exact ⟨g, rfl⟩
    | some p =>
      obtain ⟨r, c⟩ := p
      obtain ⟨s, hS⟩ := hsol
      have h0 := find_empty_zero hFE
      have hmem : s r c ∈ [1, 2, 3, 4, 5, 6, 7, 8, 9] :=
        one_to_nine_mem _ (hS.2.1 r c).1 (hS.2.1 r c).2
      exact tryNums_complete (solveBk f) g r c
        (fun gin go hh => solveBk_false_eq f gin go hh)
        (fun gin hin => solveBk_ne_none f gin (by omega))
        (fun gin hin hs2 => ih gin (by omega) hs2)
        s hS h0 _ hmem (by intro m hm; fin_cases hm <;> decide)

theorem solveBk_82_eq (g : Grid) : solveBk 82 g = some (solveGrid g) := by
  have hne := solveBk_ne_none 82 g (by have := numEmpty_le g; omega)
  cases h : solveBk 82 g with
  | none => exact absurd h hne
  | some x =>
    unfold solveGrid
    rw [h]
    rfl

theorem solveGrid_true {g gout : Grid} (h : solveGrid g = (true, gout)) :
    solveBk 82 g = some (true, gout) := by
  have h82 := solveBk_82_eq g
  rw [h] at h82
  exact h82

theorem solveGrid_preserves (g : Grid) (i j : Fin 9) (h : g i j ≠ 0) :
    (solveGrid g).2 i j = g i j := by
  have h82 := solveBk_82_eq g
  cases hsg : solveGrid g with
  | mk b gout =>
    rw [hsg] at h82
    show gout i j = g i j
    cases b
    · rw [solveBk_false_eq 82 g gout h82]
    · rcases solveBk_cells 82 g true gout h82 i j with hc | hc
      · exact hc
      · exact absurd hc.1 h

theorem uniqueVal (u : Fin 9 → Nat) (hinj : ∀ a b : Fin 9, a ≠ b → u a ≠ u b)
    (hlo : ∀ a, 1 ≤ u a) (hhi : ∀ a, u a ≤ 9) (v : Nat) (hv1 : 1 ≤ v) (hv9 : v ≤ 9) :
    ∃! a : Fin 9, u a = v := by
  have hfinj : Function.Injective
      (fun a : Fin 9 => (⟨u a - 1, by have := hhi a; have := hlo a; omega⟩ : Fin 9)) := by
    intro a b hab
    by_contra hne
    have hu := hinj a b hne
    have hval : u a - 1 = u b - 1 := congrArg Fin.val hab
    have ha := hlo a
    have hb := hlo b
    omega
  have hfsurj := Finite.injective_iff_surjective.mp hfinj
  obtain ⟨a, ha⟩ := hfsurj ⟨v - 1, by omega⟩
  have hua : u a = v := by
    have h2 : u a - 1 = v - 1 := congrArg Fin.val ha
    have := hlo a
    omega
  refine ⟨a, hua, ?_⟩
  intro b hb
  by_contra hne
  have hx := hinj b a hne
  rw [hb, hua] at hx
  exact hx rfl

theorem boxCell_ne : ∀ b k1 k2 : Fin 9, k1 ≠ k2 →
    ((boxCellR b k1, boxCellC b k1) : Fin 9 × Fin 9) ≠ (boxCellR b k2, boxCellC b k2) := by
  decide

theorem boxCell_sameUnit : ∀ b k1 k2 : Fin 9,
    sameUnit (boxCellR b k1, boxCellC b k1) (boxCellR b k2, boxCellC b k2) := by
  decide

/-- Claim C1 (amended): for every input board whose grid values lie in
[0,9] (the Grid invariant) and whose starting cells are consistent,
whenever solve returns success the resulting grid is fully assigned and
every row, every column and every 3x3 box holds each digit 1..9 exactly
once.  (As literally stated, without the consistency premise, the claim
fails: see the counterexample.) -/
theorem claim_C1 (g : Grid) (hW : WellFormedGrid g) (hC : Consistent g)
    (hs : (solveGrid g).1 = true) :
    (∀ i j, (solveGrid g).2 i j ≠ 0) ∧
      (∀ (r : Fin 9) (v : Nat), 1 ≤ v → v ≤ 9 → ∃! c : Fin 9, (solveGrid g).2 r c = v) ∧
      (∀ (c : Fin 9) (v : Nat), 1 ≤ v → v ≤ 9 → ∃! r : Fin 9, (solveGrid g).2 r c = v) ∧
      (∀ (b : Fin 9) (v : Nat), 1 ≤ v → v ≤ 9 →
        ∃! k : Fin 9, (solveGrid g).2 (boxCellR b k) (boxCellC b k) = v) := by
  have hsg : solveGrid g = (true, (solveGrid g).2) := by
    rw [← hs]
  have h82 : solveBk 82 g = some (true, (solveGrid g).2) := solveGrid_true hsg
  have hfull : ∀ i j, (solveGrid g).2 i j ≠ 0 :=
    find_empty_none (solveBk_full 82 g _ h82)
  have hcons : Consistent ((solveGrid g).2) := solveBk_consistent 82 g _ h82 hC
  have hbounds : ∀ i j, (solveGrid g).2 i j ≤ 9 := by
    intro i j
    rcases solveBk_cells 82 g true _ h82 i j with hc | hc
    · rw [hc]
      exact hW i j
    · exact hc.2.2
  have hlo : ∀ i j, 1 ≤ (solveGrid g).2 i j := by
    intro i j
    have := hfull i j
    omega
  refine ⟨hfull, ?_, ?_, ?_⟩
  · intro r v hv1 hv9
    refine uniqueVal (fun a => (solveGrid g).2 r a) ?_ (fun a => hlo r a)
      (fun a => hbounds r a) v hv1 hv9
    intro a b hab
    exact hcons (r, a) (r, b) (fun hc => hab (congrArg Prod.snd hc)) (Or.inl rfl) (hfull r a)
  · intro c v hv1 hv9
    refine uniqueVal (fun a => (solveGrid g).2 a c) ?_ (fun a => hlo a c)
      (fun a => hbounds a c) v hv1 hv9
    intro a b hab
    exact hcons (a, c) (b, c) (fun hc => hab (congrArg Prod.fst hc))
      (Or.inr (Or.inl rfl)) (hfull a c)
  · intro b v hv1 hv9
    refine uniqueVal (fun k => (solveGrid g).2 (boxCellR b k) (boxCellC b k)) ?_
      (fun k => hlo _ _) (fun k => hbounds _ _) v hv1 hv9
    intro k1 k2 hk
    exact hcons (boxCellR b k1, boxCellC b k1) (boxCellR b k2, boxCellC b k2)
      (boxCell_ne b k1 k2 hk) (boxCell_sameUnit b k1 k2) (hfull _ _)

/-- Counterexample to C1 as stated: on the fully assigned but
inconsistent all-ones board, find_empty finds no empty cell so the
solver reports success immediately, yet row 0 of the returned grid is
not a permutation of 1..9 (the digit 1 does not appear exactly once:
it fills all nine cells). -/
theorem claim_C1_counterexample :
    (solveGrid allOnes).1 = true ∧ ¬ (∃! c : Fin 9, (solveGrid allOnes).2 0 c = 1) := by
  constructor
  · decide
  · intro hex
    obtain ⟨c0, hc0, huniq⟩ := hex
    have h0 : (solveGrid allOnes).2 0 0 = 1 := by decide
    have h1 : (solveGrid allOnes).2 0 1 = 1 := by decide
    have e0 := huniq 0 h0
    have e1 := huniq 1 h1
    rw [← e0] at e1
    exact absurd e1 (by decide)

/-- Witness for C1 at the one-empty-cell puzzle gSolvedMinus. -/
theorem claim_C1_witness :
    WellFormedGrid gSolvedMinus ∧ Consistent gSolvedMinus ∧
      (solveGrid gSolvedMinus).1 = true ∧
      ((∀ i j, (solveGrid gSolvedMinus).2 i j ≠ 0) ∧
        (∀ (r : Fin 9) (v : Nat), 1 ≤ v → v ≤ 9 →
          ∃! c : Fin 9, (solveGrid gSolvedMinus).2 r c = v) ∧
        (∀ (c : Fin 9) (v : Nat), 1 ≤ v → v ≤ 9 →
          ∃! r : Fin 9, (solveGrid gSolvedMinus).2 r c = v) ∧
        (∀ (b : Fin 9) (v : Nat), 1 ≤ v → v ≤ 9 →
          ∃! k : Fin 9, (solveGrid gSolvedMinus).2 (boxCellR b k) (boxCellC b k) = v)) :=
  ⟨by decide, by decide, by decide,
    claim_C1 gSolvedMinus (by decide) (by decide) (by decide)⟩

/-- Claim C2 (amended): on an inconsistent starting grid the solver
never manufactures a valid solution: if it reports success, the
returned grid still contains the very duplicate of the input (nonzero
input cells are preserved), hence is still inconsistent.  Failure is
not guaranteed: a fully assigned inconsistent board is reported solved
(see the counterexample). -/
theorem claim_C2 (g gout : Grid) (hI : ¬ Consistent g) (hs : solveGrid g = (true, gout)) :
    ¬ Consistent gout := by
  have h82 := solveGrid_true hs
  have hpres := solveBk_cells 82 g true gout h82
  intro hCout
  apply hI
  intro p q hpq hu hp0
  have hp : gout p.1 p.2 = g p.1 p.2 := by
    rcases hpres p.1 p.2 with hc | hc
    · exact hc
    · exact absurd hc.1 hp0
  by_cases hq0 : g q.1 q.2 = 0
  · rw [hq0]
    exact hp0
  · have hq : gout q.1 q.2 = g q.1 q.2 := by
      rcases hpres q.1 q.2 with hc | hc
      · exact hc
      · exact absurd hc.1 hq0
    have hx := hCout p q hpq hu (by rw [hp]; exact hp0)
    rw [hp, hq] at hx
    exact hx

/-- Counterexample to C2 as stated: the all-ones board is inconsistent
(digit 1 is duplicated within row 0, and every other unit), yet solve
returns success, not failure, because the grid has no empty cell and
the backtracking procedure succeeds the moment find_empty returns
none, without any consistency check. -/
theorem claim_C2_counterexample :
    (¬ Consistent allOnes) ∧ (solveGrid allOnes).1 = true := by
  constructor
  · decide
  · decide

/-- Witness for C2 at the all-ones board. -/
theorem claim_C2_witness :
    (¬ Consistent allOnes) ∧ solveGrid allOnes = (true, (solveGrid allOnes).2) ∧
      ¬ Consistent (solveGrid allOnes).2 :=
  ⟨by decide, by decide, claim_C2 allOnes ((solveGrid allOnes).2) (by decide) (by decide)⟩

/-- Claim C3: is_valid(row, col, num) returns false exactly when num
already appears somewhere in the row, the column, or the 3x3 box of
the cell, and true otherwise; on the canonical test puzzle
is_valid(0,2,4) is true and is_valid(0,2,5) is false. -/
theorem claim_C3 :
    (∀ (g : Grid) (r c : Fin 9) (n : Nat),
      is_valid g r c n = true ↔
        ¬ ((∃ i, g i c = n) ∨ (∃ j, g r j = n) ∨
          (∃ i j : Fin 9, i.val / 3 = r.val / 3 ∧ j.val / 3 = c.val / 3 ∧ g i j = n))) ∧
      is_valid canonicalGrid 0 2 4 = true ∧ is_valid canonicalGrid 0 2 5 = false := by
  refine ⟨?_, by decide, by decide⟩
  intro g r c n
  rw [is_valid_iff]
  constructor
  · rintro ⟨hcol, hrow, hbox⟩ (⟨i, hi⟩ | ⟨j, hj⟩ | ⟨i, j, h1, h2, hij⟩)
    · exact hcol i hi
    · exact hrow j hj
    · exact hbox i j h1 h2 hij
  · intro hno
    push_neg at hno
    exact ⟨fun i => hno.1 i, fun j => hno.2.1 j, fun i j h1 h2 => hno.2.2 i j h1 h2⟩

/-- Claim C4: find_empty returns the first cell holding 0 in row-major
order (none exactly when the grid is full); on the canonical puzzle it
returns (0, 2). -/
theorem claim_C4 :
    (∀ g : Grid,
      (find_empty g = none ↔ ∀ i j, g i j ≠ 0) ∧
        (∀ r c : Fin 9, find_empty g = some (r, c) ↔
          (g r c = 0 ∧ ∀ p : Fin 9 × Fin 9, lexLt p (r, c) → g p.1 p.2 ≠ 0))) ∧
      find_empty canonicalGrid = some (0, 2) := by
  refine ⟨?_, by decide⟩
  intro g
  exact ⟨find_empty_none_iff, fun r c => find_empty_some_iff⟩

/-- Claim C5: under the Board lifecycle invariant that every cell
marked given holds a nonzero value (ingestion marks exactly the
nonzero cells), a successful solve returns a grid with the same value
at every given cell. -/
theorem claim_C5 (g : Grid) (marks : Fin 9 → Fin 9 → Bool)
    (hinv : ∀ i j, marks i j = true → g i j ≠ 0)
    (hs : (solveGrid g).1 = true) (i j : Fin 9) (hg : marks i j = true) :
    (solveGrid g).2 i j = g i j :=
  solveGrid_preserves g i j (hinv i j hg)

/-- Witness for C5 at gSolvedMinus with its load-time markers. -/
theorem claim_C5_witness :
    (∀ i j, givenMarks i j = true → gSolvedMinus i j ≠ 0) ∧
      (solveGrid gSolvedMinus).1 = true ∧ givenMarks 0 1 = true ∧
      (solveGrid gSolvedMinus).2 0 1 = gSolvedMinus 0 1 :=
  ⟨by decide, by decide, by decide,
    claim_C5 gSolvedMinus givenMarks (by decide) (by decide) 0 1 (by decide)⟩

/-- Claim C6: solve operates on a value copy of the input board, so the
board held by the solver after the call has exactly the input's grid
and given markers, whether the search succeeded or failed. -/
theorem claim_C6 (s : SudokuSolver) :
    ((SudokuSolver.solve s).2).board.board = s.board.board ∧
      ((SudokuSolver.solve s).2).board.original = s.board.original :=
  ⟨rfl, rfl⟩

/-- Claim C7: when solve returns failure every tentative placement has
been undone: the solver's working grid equals the input grid exactly,
so the caller is never handed a partially filled grid. -/
theorem claim_C7 (g : Grid) (hf : (solveGrid g).1 = false) : (solveGrid g).2 = g := by
  have h82 := solveBk_82_eq g
  cases hsg : solveGrid g with
  | mk b gout =>
    rw [hsg] at h82 hf
    show gout = g
    have hb : b = false := hf
    rw [hb] at h82
    exact solveBk_false_eq 82 g gout h82

/-- Witness for C7 at the quickly failing board uQuick. -/
theorem claim_C7_witness : (solveGrid uQuick).1 = false ∧ (solveGrid uQuick).2 = uQuick :=
  ⟨by decide, claim_C7 uQuick (by decide)⟩

/-- Claim C8: with fuel 82 the backtracking recursion always returns a
definitive success-or-failure answer (the recursion depth is bounded by
the number of empty cells, at most 81), so the search terminates on
every input grid; and solving the all-zero (fully empty) grid
succeeds. -/
theorem claim_C8 :
    (∀ g : Grid, (solveBk 82 g).isSome = true) ∧ (solveGrid zeroGrid).1 = true := by
  constructor
  · intro g
    rw [solveBk_82_eq g]
    rfl
  · have hsol : ∃ s, SolutionOf zeroGrid s := ⟨fullSolution, by decide⟩
    have hlt : numEmpty zeroGrid < 82 := by
      have := numEmpty_le zeroGrid
      omega
    obtain ⟨gout, h⟩ := solveBk_complete 82 zeroGrid hlt hsol
    have h82 := solveBk_82_eq zeroGrid
    rw [h] at h82
    injection h82 with h'
    rw [← h']

/-- Claim C9 (amended): the Board operations perform no argument
validation of their own.  A num outside [1,9] is scanned for like any
other value and the call completes normally; a row or col in [-9,-1]
silently wraps around (array negative indexing) instead of being
rejected; a row or col outside [-9,8] raises the array layer's
IndexError only if and when the scan actually reaches an out-of-range
access, so even then the call can return normally via an early exit. -/
theorem claim_C9 :
    is_valid_np canonicalGrid 0 2 15 = Except.ok true ∧
      is_valid_np canonicalGrid 0 2 0 = Except.ok false ∧
      is_valid_np canonicalGrid (-1) 0 2 = Except.ok true ∧
      is_valid_np canonicalGrid 9 0 6 = Except.ok false ∧
      is_valid_np canonicalGrid 9 0 2 = Except.error PyErr.indexError :=
  ⟨rfl, rfl, rfl, rfl, rfl⟩

/-- Counterexample to C9 as stated: the call is_valid(0, 2, 15) has num
outside [1,9] yet is not rejected: it completes normally and returns
true (15 appears nowhere), with no invalid-argument signal. -/
theorem claim_C9_counterexample :
    is_valid_np canonicalGrid 0 2 15 = Except.ok true := rfl

/-- Claim C10: every nonzero input cell keeps its value through solve,
on success and failure alike: the solver only ever writes to cells
whose current value is 0 (find_empty only returns such cells, and
backtracking resets them to 0), and the embedded search never consults
the given markers (it takes only the grid). -/
theorem claim_C10 (g : Grid) (i j : Fin 9) (h : g i j ≠ 0) :
    (solveGrid g).2 i j = g i j :=
  solveGrid_preserves g i j h

/-- Witness for C10 at the failing board uQuick. -/
theorem claim_C10_witness :
    uQuick 0 0 ≠ 0 ∧ (solveGrid uQuick).2 0 0 = uQuick 0 0 :=
  ⟨by decide, claim_C10 uQuick 0 0 (by decide)⟩

end Sudoku
